import Mathlib

/-!
# Verification of the covid-cs4337-viz merge-and-derivation engine

This file gives a shallow embedding, in Lean 4, of the table primitives,
derivation functions and merge orchestration of the repository
(`src/data/pandasutils.py`, `src/data/loader.py`, `src/data/datasets.py`,
`src/app/transformations.py`) and proves or refutes the frozen claims
about them.

Modelling conventions:
* A table is a `List` of rows; a row is a structure (or tuple) whose
  fields are the columns relevant to the operation under study.
* Nullable numeric cells (`NaN` in pandas) are `Option Int` (exact
  integers stand in for floats; none of the claims exercises
  float-specific behaviour except rounding, which is modelled exactly
  on `ℚ` with numpy's round-half-to-even rule).
* Dates are serial day numbers (`Int`, days since 1970-01-01), the same
  representation `datetime64[D]` uses; calendar conversions implement
  the standard civil-from-days / days-from-civil algorithms.
* In-place pandas mutation is modelled by returning the new table.
* Raising (`raise ValueError`) is modelled with `Except String`.
-/

deriving instance DecidableEq for Except

namespace CovidViz

/-! ## Calendar arithmetic

`Date` is a serial day number: day 0 = 1970-01-01 (a Thursday), exactly
the `datetime64[D]` representation used by pandas once
`pd.to_datetime` has parsed the source strings. -/

/-- Serial day number (days since 1970-01-01). -/
abbrev Date := Int

/-- Days since 1970-01-01 of the civil date y-m-d (proleptic Gregorian).
Standard days-from-civil algorithm; `Int` division truncates toward
zero exactly like the reference formulation. -/
def daysFromCivil (y m d : Int) : Date :=
  let y := if m ≤ 2 then y - 1 else y
  let era := (if 0 ≤ y then y else y - 399) / 400
  let yoe := y - era * 400
  let mp := m + (if 2 < m then -3 else 9)
  let doy := (153 * mp + 2) / 5 + d - 1
  let doe := yoe * 365 + yoe / 4 - yoe / 100 + doy
  era * 146097 + doe - 719468

/-- Civil date (y, m, d) of a serial day number (inverse of
`daysFromCivil`; standard civil-from-days algorithm). -/
def civilFromDays (z : Date) : Int × Int × Int :=
  let z := z + 719468
  let era := (if 0 ≤ z then z else z - 146096) / 146097
  let doe := z - era * 146097
  let yoe := (doe - doe / 1460 + doe / 36524 - doe / 146096) / 365
  let y := yoe + era * 400
  let doy := doe - (365 * yoe + yoe / 4 - yoe / 100)
  let mp := (5 * doy + 2) / 153
  let d := doy - (153 * mp + 2) / 5 + 1
  let m := mp + (if mp < 10 then 3 else -9)
  (if m ≤ 2 then y + 1 else y, m, d)

/-- `weekday()` of a serial day, Monday = 0 (python/pandas
`Timestamp.weekday` convention). Day 0 (1970-01-01) is a Thursday. -/
def weekdayMon (n : Date) : Int := (n + 3) % 7

/-- Day of week, Sunday = 0 (the `%w`/`%U` convention of `strftime`). -/
def weekdaySun (n : Date) : Int := (n + 4) % 7

/-- 1-based day of the year of a serial day. -/
def dayOfYear (n : Date) : Int :=
  n - daysFromCivil (civilFromDays n).1 1 1 + 1

/-- Zero-pad a nonnegative integer to (at least) two digits, as
`strftime` does for `%U`. -/
def pad2 (k : Int) : String :=
  if k < 10 then "0" ++ toString k else toString k

/-- The label produced by `strftime('%Y-%U')`: calendar year and
Sunday-based week-of-year (week 01 starts at the first Sunday of the
year; earlier days are week 00). -/
def strftimeYU (n : Date) : String :=
  toString (civilFromDays n).1 ++ "-" ++ pad2 ((dayOfYear n + 7 - weekdaySun n) / 7)

/-- Modelled from the spec: the `"<ISO-year>-<week-number>"` label the
spec attributes to the `byWeekNumber` branch (ISO-8601 week date:
the week's Thursday decides the ISO year; weeks start on Monday). -/
def isoWeekLabel (n : Date) : String :=
  let thu := n - weekdayMon n + 3
  let y := (civilFromDays thu).1
  toString y ++ "-" ++ pad2 ((thu - daysFromCivil y 1 1) / 7 + 1)

/-! ## `convert_date_field_to_week` (src/data/pandasutils.py 232-247)

```python
def convert_date_field_to_week(df, date_field, inplace=True, week_number=True):
    def data_func():
        if week_number:
            return df[date_field].dt.strftime('%Y-%U')
        else:
            return df[date_field] - df[date_field].dt.weekday * np.timedelta64(1, 'D')
    return df.create_column('Week', data_func, inplace=inplace)
```

The new column's cells are strings in one branch and dates in the
other (python is dynamically typed), so the `Week` cell is a sum type
here. A row is a date plus the untouched rest of the row (`α`). -/

/-- A cell of the added `Week` column: a `%Y-%U` label or a date. -/
inductive WeekCell
  | label (s : String)
  | day (d : Date)
deriving DecidableEq, Repr

/-- A row of a dated table: the date column plus every other column,
bundled opaquely in `other` (the function touches nothing else). -/
structure DatedRow (α : Type) where
  date : Date
  other : α
deriving DecidableEq, Repr

/-- A row after `convert_date_field_to_week`: the original columns plus
the added `Week` column. -/
structure WeekRow (α : Type) where
  date : Date
  other : α
  week : WeekCell
deriving DecidableEq, Repr

/-- `convert_date_field_to_week`: adds a `Week` column computed from
the date column; `week_number=true` uses `strftime('%Y-%U')`,
`week_number=false` subtracts `weekday()` days from the date.
(`create_column` with the default `overwrite=True` simply assigns the
new column; the date column itself is not assigned to.) -/
def convert_date_field_to_week (week_number : Bool) (df : List (DatedRow α)) :
    List (WeekRow α) :=
  df.map fun r =>
    { date := r.date
      other := r.other
      week := if week_number then .label (strftimeYU r.date) else .day (r.date - weekdayMon r.date) }

/-- The date minus its Monday-based weekday is the Monday of its week:
a Monday, at most the date, and less than seven days before it. -/
theorem weekStart_monday (n : Int) :
    weekdayMon (n - weekdayMon n) = 0 ∧ n - weekdayMon n ≤ n ∧ n < n - weekdayMon n + 7 := by
  unfold weekdayMon
  refine ⟨by omega, by omega, by omega⟩

/-! ### Claim C9 -/

/-- C9 (counterexample). The claim says the `byWeekNumber=true` branch
produces the `"<ISO-year>-<week-number>"` label of the date.  On
2021-01-01 the code's `strftime('%Y-%U')` yields `"2021-00"` (calendar
year 2021, Sunday-based week 00) whereas the ISO week date of
2021-01-01 is `"2020-53"`, so the produced `Week` cell differs from
the ISO label the claim prescribes. -/
theorem C9_week_label_not_iso :
    convert_date_field_to_week true [⟨daysFromCivil 2021 1 1, ()⟩] ≠
      [⟨daysFromCivil 2021 1 1, (), .label (isoWeekLabel (daysFromCivil 2021 1 1))⟩] := by
  decide

/-- C9 (amended). `convert_date_field_to_week` adds a single `Week`
column and leaves the date column (and every other column) unchanged;
with `week_number=true` the `Week` value is the `strftime('%Y-%U')`
label (calendar year plus Sunday-based week-of-year, not the ISO
year-week), and with `week_number=false` it is the date minus
`weekday()` days, which is the Monday of that date's week (the unique
Monday `d` with `d ≤ date < d + 7`). -/
theorem C9_convert_date_field_to_week (wn : Bool) (df : List (DatedRow α)) :
    ((convert_date_field_to_week wn df).map fun r => (r.date, r.other)) =
        (df.map fun r => (r.date, r.other)) ∧
      ∀ r ∈ convert_date_field_to_week wn df,
        (wn = true → r.week = .label (strftimeYU r.date)) ∧
        (wn = false → ∃ d : Date, r.week = .day d ∧
          weekdayMon d = 0 ∧ d ≤ r.date ∧ r.date < d + 7) := by
  constructor
  · simp [convert_date_field_to_week]
  · intro r hr
    simp only [convert_date_field_to_week, List.mem_map] at hr
    obtain ⟨s, -, rfl⟩ := hr
    constructor
    · intro hwn; simp [hwn]
    · intro hwn
      exact ⟨s.date - weekdayMon s.date, by simp [hwn], (weekStart_monday s.date).1,
        (weekStart_monday s.date).2.1, (weekStart_monday s.date).2.2⟩

/-- C9 witness: the amended theorem applied to the claim's own
instance, 2021-01-06 (a Wednesday): the `week_number=false` branch
yields the Monday 2021-01-04 (shown to be a Monday by the theorem),
and the `week_number=true` branch yields the `%Y-%U` label
`"2021-01"`. -/
theorem C9_convert_date_field_to_week_witness :
    (⟨daysFromCivil 2021 1 6, (), .day (daysFromCivil 2021 1 4)⟩ : WeekRow Unit) ∈
        convert_date_field_to_week false [⟨daysFromCivil 2021 1 6, ()⟩] ∧
      (⟨daysFromCivil 2021 1 6, (), .label "2021-01"⟩ : WeekRow Unit) ∈
        convert_date_field_to_week true [⟨daysFromCivil 2021 1 6, ()⟩] ∧
      weekdayMon (daysFromCivil 2021 1 4) = 0 := by
  have hmem : (⟨daysFromCivil 2021 1 6, (), .day (daysFromCivil 2021 1 4)⟩ : WeekRow Unit) ∈
      convert_date_field_to_week false [⟨daysFromCivil 2021 1 6, ()⟩] := by decide
  obtain ⟨d, hd, hmon, -, -⟩ := ((C9_convert_date_field_to_week (α := Unit) false
      [⟨daysFromCivil 2021 1 6, ()⟩]).2 _ hmem).2 rfl
  have hd' : WeekCell.day (daysFromCivil 2021 1 4) = WeekCell.day d := hd
  have hdd : d = daysFromCivil 2021 1 4 := by
    simp only [WeekCell.day.injEq] at hd'
    exact hd'.symm
  refine ⟨hmem, by decide, ?_⟩
  rw [← hdd]
  exact hmon

/-! ## `map_counts_to_categorical` (src/app/transformations.py 10-47)

```python
def keep_max(df1, group_by, field):
    maximum = df1.groupby(group_by)[field].max()
    maximum = max(maximum)
    return df1[df1[field] == maximum]
```

`df1.groupby(group_by)[field].max()` is the series of per-group maxima
(one entry per distinct key); python's builtin `max` then collapses
that series to a single number — the maximum of the per-group maxima,
i.e. the global maximum of `field` over `df1` — and the filter keeps
every row attaining it.  (`max` of an empty series raises `TypeError`;
the embedding returns `[]` on an empty frame, a case nothing below
exercises.)  `group` and `field` are column accessors. -/

/-- The `keep_max` helper. -/
def keep_max (group : ρ → γ) (field : ρ → Int) [DecidableEq γ] (df1 : List ρ) : List ρ :=
  let maxima := ((df1.map group).dedup).filterMap
    fun g => ((df1.filter fun r => group r = g).map field).max?
  match maxima.max? with
  | some m => df1.filter fun r => field r = m
  | none => []

/-- One row of the long-format output: the `selection_base` key
columns, the generic `Count` column and the `Type` label column. -/
structure LongRow (κ : Type) where
  key : κ
  count : Int
  type : String
deriving DecidableEq, Repr

/-- `drop_duplicates(subset=key, keep='last')`: keep a row exactly when
no later row has the same key; kept rows stay in their original
order. -/
def drop_duplicates_last (key : ρ → κ) [DecidableEq κ] : List ρ → List ρ
  | [] => []
  | r :: rest =>
    if rest.any (fun s => key s = key r) then drop_duplicates_last key rest
    else r :: drop_duplicates_last key rest

/-- Column lookup in an association-list row.  The python code indexes
`df[column]`, which presupposes the column exists; rows below always
carry the selected columns, so the `getD 0` default is never hit. -/
def getCol (cols : List (String × Int)) (c : String) : Int :=
  ((cols.find? fun p => p.1 = c).map Prod.snd).getD 0

/-- `map_counts_to_categorical(df, selection_base, columns,
label_mappings, keep_max_value)`: one sub-table per value column
(key columns, that column renamed `Count`, constant `Type` label),
each sub-table passed through `keep_max` grouped by
`selection_base + ['Type']` when `keep_max_value` is set, all appended
in order, then de-duplicated on `(selection_base, Type)` keeping the
last row.  A row of `df` is its key tuple `κ` plus the named value
columns. -/
def map_counts_to_categorical (df : List (κ × List (String × Int)))
    (columns : List String) (label : String → String) (keep_max_value : Bool)
    [DecidableEq κ] : List (LongRow κ) :=
  let dataframes := columns.map fun c =>
    df.map fun r => LongRow.mk r.1 (getCol r.2 c) (label c)
  match dataframes with
  | [] => []
  | main :: rest =>
    let km := fun d : List (LongRow κ) =>
      if keep_max_value then keep_max (fun r => (r.key, r.type)) LongRow.count d else d
    drop_duplicates_last (fun r => (r.key, r.type))
      (rest.foldl (fun acc d => acc ++ km d) (km main))

/-! ### Claim C1 -/

/-- C1. The claim (and the spec) say that with `keepMaxOnly=true`,
within every `(keyColumns, Type)` group only the row(s) attaining that
group's own maximum `Count` are retained.  The code instead filters by
the maximum of the per-group maxima — the global maximum — so any
group whose maximum is below the global one loses all of its rows.

First conjunct: on the claim's own single-group example
`{(US, Jan, cases=10), (US, Jan, cases=10), (US, Jan, cases=7)}` the
two rows with value 10 are indeed retained before de-duplication
(one group, so its maximum is the global maximum).

Second conjunct: on the two-group input
`{(US-Jan, cases=10), (UK-Jan, cases=5)}` the UK row — the sole row,
hence the maximum, of its own `((UK, Jan), cases)` group — is dropped
because its count 5 is below the global maximum 10, contradicting the
claimed per-group retention. -/
theorem C1_keep_max_uses_global_maximum :
    keep_max (fun r : LongRow (String × String) => (r.key, r.type)) LongRow.count
        [⟨("US", "Jan"), 10, "cases"⟩, ⟨("US", "Jan"), 10, "cases"⟩,
          ⟨("US", "Jan"), 7, "cases"⟩] =
      [⟨("US", "Jan"), 10, "cases"⟩, ⟨("US", "Jan"), 10, "cases"⟩] ∧
    map_counts_to_categorical
        [(("US", "Jan"), [("cases", 10)]), (("UK", "Jan"), [("cases", 5)])]
        ["cases"] id true =
      [⟨("US", "Jan"), 10, "cases"⟩] := by
  constructor <;> decide

/-! ## `subtract_previous` (src/data/pandasutils.py 84-102)

```python
df[new_field] = df[field] - df.groupby(group_field)[field].shift(1)
df[new_field] = df[new_field].clip(lower=0)
```

`groupby(group_field)[field].shift(1)` gives, at row `i`, the `field`
value of the nearest earlier row of the same group (`NaN` when the row
is the first of its group); the subtraction is `NaN` whenever either
operand is, and `clip(lower=0)` maps `NaN` to `NaN` and a number `d`
to `max d 0`.  The embedding is generic in the row type: `group` and
`value` are the column accessors and `write` builds the output row
from the input row and the computed new column (the input row's other
columns pass through `write` untouched). -/

/-- The `subtract_previous` table primitive. -/
def subtract_previous (group : ρ → γ) (value : ρ → Option Int)
    (write : ρ → Option Int → σ) [DecidableEq γ] (rows : List ρ) : List σ :=
  rows.mapIdx fun i r =>
    let lag := ((rows.take i).reverse.find? fun p => group p = group r).map value
    let diff := match value r, lag with
      | some v, some (some p) => some (v - p)
      | _, _ => none
    write r (diff.map fun d => max d 0)

/-- Searching the reversed prefix `rows[0..i)` finds nothing when no
index below `i` satisfies the predicate. -/
theorem find?_reverse_take_eq_none (rows : List ρ) (p : ρ → Bool) (i : Nat)
    (h : ∀ (j : Nat) (rj : ρ), j < i → rows[j]? = some rj → p rj = false) :
    ((rows.take i).reverse.find? p) = none := by
  rw [List.find?_eq_none]
  intro x hx
  rw [List.mem_reverse] at hx
  obtain ⟨n, hn, hx⟩ := List.mem_iff_getElem.mp hx
  have hni : n < i := lt_of_lt_of_le hn (by simp)
  have hnr : n < rows.length := lt_of_lt_of_le hn (by simp)
  have hx' : rows[n]? = some x := by
    rw [List.getElem?_eq_getElem hnr, ← hx, List.getElem_take]
  rw [h n x hni hx']
  simp

/-- Searching the reversed prefix `rows[0..i)` finds exactly `rows[j]`
when index `j` satisfies the predicate and no index strictly between
`j` and `i` does: the reversed prefix is scanned from index `i - 1`
downwards, so `j` is the first hit. -/
theorem find?_reverse_take_eq_some (rows : List ρ) (p : ρ → Bool) (i j : Nat) (rj : ρ)
    (hj : j < i) (hjr : rows[j]? = some rj) (hpj : p rj = true)
    (hafter : ∀ (t : Nat) (rt : ρ), j < t → t < i → rows[t]? = some rt → p rt = false) :
    ((rows.take i).reverse.find? p) = some rj := by
  have hjl : j < rows.length := by
    by_contra hcon
    rw [List.getElem?_eq_none (by omega)] at hjr
    exact Option.noConfusion hjr
  have hsplit : rows.take i = rows.take (j + 1) ++ (rows.take i).drop (j + 1) := by
    conv_lhs => rw [← List.take_append_drop (j + 1) (rows.take i)]
    rw [List.take_take, min_eq_left (by omega)]
  rw [hsplit, List.reverse_append, List.find?_append]
  have hdropnone : ((rows.take i).drop (j + 1)).reverse.find? p = none := by
    rw [List.find?_eq_none]
    intro x hx
    rw [List.mem_reverse] at hx
    obtain ⟨n, hn, hx⟩ := List.mem_iff_getElem.mp hx
    have hlen : j + 1 + n < (rows.take i).length := by
      simp only [List.length_drop] at hn
      omega
    have hni : j + 1 + n < i := by
      have := hlen
      simp only [List.length_take] at this
      omega
    have hnr : j + 1 + n < rows.length := by
      have := hlen
      simp only [List.length_take] at this
      omega
    have hx' : rows[j + 1 + n]? = some x := by
      rw [List.getElem?_eq_getElem hnr, ← hx, List.getElem_drop, List.getElem_take]
    rw [hafter _ x (by omega) hni hx']
    simp
  rw [hdropnone]
  have htake1 : rows.take (j + 1) = rows.take j ++ [rj] := by
    rw [List.take_succ, hjr]
    rfl
  rw [htake1, List.reverse_append]
  simp only [List.reverse_singleton, List.singleton_append, List.find?_cons_of_pos _ hpj,
    Option.none_or]

/-! ### Claim C2 -/

/-- C2. `subtract_previous(field, group_field, new_field)` preserves
the row count, and each output row is the matching input row with one
new column `o` written into it (`write` receives the input row
untouched, so all other columns are unchanged), where
* `o` is never a negative number (negative differences are clamped to
  zero by `clip(lower=0)`),
* `o` is null on the first row of each group (no earlier row of the
  same group exists — the lag is absent), and
* whenever row `j` is the nearest earlier row of row `i`'s group and
  both rows carry values `p` and `v`, `o = v - p` if that difference
  is non-negative and `0` otherwise (and `o` is null when either value
  is null). -/
theorem C2_subtract_previous (group : ρ → γ) (value : ρ → Option Int)
    (write : ρ → Option Int → σ) [DecidableEq γ] (rows : List ρ) :
    (subtract_previous group value write rows).length = rows.length ∧
    ∀ (i : Nat) (ri : ρ), rows[i]? = some ri → ∃ o : Option Int,
      (subtract_previous group value write rows)[i]? = some (write ri o) ∧
      (∀ k, o = some k → 0 ≤ k) ∧
      ((∀ (j : Nat) (rj : ρ), j < i → rows[j]? = some rj → group rj ≠ group ri) → o = none) ∧
      (∀ (j : Nat) (rj : ρ), j < i → rows[j]? = some rj → group rj = group ri →
        (∀ (t : Nat) (rt : ρ), j < t → t < i → rows[t]? = some rt → group rt ≠ group ri) →
        o = match value ri, value rj with
            | some v, some p => some (max (v - p) 0)
            | _, _ => none) := by
  constructor
  · simp [subtract_previous]
  intro i ri hri
  have hstep : (subtract_previous group value write rows)[i]? =
      some (write ri
        ((match value ri,
            (((rows.take i).reverse.find? fun p => group p = group ri).map value) with
          | some v, some (some p) => some (v - p)
          | _, _ => none).map fun d => max d 0)) := by
    simp only [subtract_previous, List.getElem?_mapIdx, hri]
    rfl
  refine ⟨_, hstep, ?_, ?_, ?_⟩
  · intro k hk
    rcases hm : (match value ri,
        (((rows.take i).reverse.find? fun p => group p = group ri).map value) with
      | some v, some (some p) => some (v - p)
      | _, _ => none) with - | d
    · rw [hm] at hk; simp at hk
    · rw [hm] at hk
      simp only [Option.map_some', Option.some.injEq] at hk
      omega
  · intro hfirst
    have hnone : ((rows.take i).reverse.find? fun p => group p = group ri) = none := by
      refine find?_reverse_take_eq_none rows _ i ?_
      intro j rj hj hjr
      exact decide_eq_false (hfirst j rj hj hjr)
    rw [hnone]
    rcases value ri <;> rfl
  · intro j rj hj hjr hgr hafter
    have hsome : ((rows.take i).reverse.find? fun p => group p = group ri) = some rj := by
      refine find?_reverse_take_eq_some rows _ i j rj hj hjr (decide_eq_true hgr) ?_
      intro t rt htj hti htr
      exact decide_eq_false (hafter t rt htj hti htr)
    rw [hsome]
    simp only [Option.map_some']
    rcases value ri with - | v <;> rcases value rj with - | p <;> rfl

/-- C2 witness: on the cumulative series
`[("X", 10), ("X", 15), ("X", 12), ("Y", 3), ("X", 20)]` grouped by the
first component, row 2 (value 12, preceded in group "X" by value 15)
gets the clamped difference `max (12 - 15) 0 = 0`. -/
theorem C2_subtract_previous_witness :
    ∃ o : Option Int,
      (subtract_previous Prod.fst Prod.snd (fun r o => (r.1, r.2, o))
          [("X", some 10), ("X", some 15), ("X", some 12), ("Y", some 3),
            ("X", (some 20 : Option Int))])[2]? = some ("X", some 12, o) ∧
        o = some 0 := by
  obtain ⟨o, h1, -, -, h4⟩ := (C2_subtract_previous Prod.fst Prod.snd (fun r o => (r.1, r.2, o))
      [("X", some 10), ("X", some 15), ("X", some 12), ("Y", some 3),
        ("X", (some 20 : Option Int))]).2 2 ("X", some 12) (by decide)
  refine ⟨o, h1, ?_⟩
  rw [h4 1 ("X", some 15) (by decide) (by decide) (by decide)
    (fun t rt ht1 ht2 _ => by omega)]
  decide

/-! ## `replace_rows` (src/data/pandasutils.py 146-166)

```python
other_values = replacement[replacement[column] != value]
if not other_values.empty:
    raise ValueError(f'The replacement DataFrame has rows which have values different to {value}')
df = self if inplace else self.copy()
df.loc[df[column] == value] = replacement.values
```

`replacement.values` strips the replacement's column names, so the
assignment is positional: pandas writes the replacement's rows,
column position by column position, into the receiver's rows matched
by the mask.  A row is therefore modelled as a bare list of cells;
`ciSelf` and `ciRepl` are the positions the name `column` resolves to
in the receiver and in the replacement respectively (the precondition
check uses the replacement's own name lookup, the write is
positional).  The per-column numpy assignment
`col[mask_positions] = vals` requires `len(vals)` to equal the number
of matched positions — except that a single element broadcasts to all
of them — and raises `ValueError` (before writing anything)
otherwise. -/

/-- `true` exactly on the `.error` constructor. -/
def isError : Except ε α → Bool
  | .error _ => true
  | .ok _ => false

/-- Positional masked write: each row satisfying `p` is replaced by the
next unused replacement row; other rows are untouched.  (The branch
taken when the replacement runs out keeps the receiver row; callers
only reach it with equal counts.) -/
def writeMatched (p : List α → Bool) : List (List α) → List (List α) → List (List α)
  | [], _ => []
  | r :: rest, repl =>
    if p r then
      match repl with
      | v :: vs => v :: writeMatched p rest vs
      | [] => r :: writeMatched p rest []
    else
      r :: writeMatched p rest repl

/-- The `replace_rows` table primitive. -/
def replace_rows (ciSelf ciRepl : Nat) (value : α) [DecidableEq α]
    (df replacement : List (List α)) : Except String (List (List α)) :=
  let other_values := replacement.filter fun r => ¬ (r[ciRepl]? = some value)
  if other_values.isEmpty then
    let mask := fun r : List α => decide (r[ciSelf]? = some value)
    if replacement.length = (df.filter mask).length then
      .ok (writeMatched mask df replacement)
    else
      match replacement with
      | [v] => .ok (df.map fun r => if r[ciSelf]? = some value then v else r)
      | _ => .error "ValueError: length mismatch in masked ndarray assignment"
  else
    .error "ValueError: the replacement DataFrame has rows with different values"

/-- `writeMatched` never changes the number of rows. -/
theorem writeMatched_length (p : List α → Bool) (df repl : List (List α)) :
    (writeMatched p df repl).length = df.length := by
  induction df generalizing repl with
  | nil => rfl
  | cons r rest ih =>
    simp only [writeMatched]
    by_cases hp : p r
    · simp only [hp, if_true]
      cases repl with
      | nil => simp [ih]
      | cons v vs => simp [ih]
    · simp [hp, ih]

/-- Positional characterisation of `writeMatched` under equal counts:
row `i` of the output is row `i` of the receiver if it is unmatched,
and otherwise the replacement row whose index is the number of matched
receiver rows before position `i`. -/
theorem writeMatched_getElem? (p : List α → Bool) (df repl : List (List α))
    (h : repl.length = (df.filter p).length) (i : Nat) (ri : List α)
    (hdf : df[i]? = some ri) :
    (writeMatched p df repl)[i]? =
      if p ri then repl[((df.take i).filter p).length]? else some ri := by
  induction df generalizing repl i with
  | nil => simp at hdf
  | cons r rest ih =>
    cases i with
    | zero =>
      simp only [List.getElem?_cons_zero, Option.some.injEq] at hdf
      subst hdf
      cases hp : p r with
      | false => simp [writeMatched, hp]
      | true =>
        cases repl with
        | nil =>
          rw [List.filter_cons_of_pos hp] at h
          simp at h
        | cons v vs => simp [writeMatched, hp]
    | succ n =>
      simp only [List.getElem?_cons_succ] at hdf
      cases hp : p r with
      | false =>
        have h' : repl.length = (rest.filter p).length := by
          rwa [List.filter_cons_of_neg (by simp [hp])] at h
        simp only [writeMatched, hp, Bool.false_eq_true, if_false, List.getElem?_cons_succ]
        rw [ih repl h' n hdf, List.take_succ_cons,
          List.filter_cons_of_neg (by simp [hp])]
      | true =>
        cases repl with
        | nil =>
          rw [List.filter_cons_of_pos hp] at h
          simp at h
        | cons v vs =>
          have h' : vs.length = (rest.filter p).length := by
            rw [List.filter_cons_of_pos hp] at h
            simpa using h
          simp only [writeMatched, hp, if_true, List.getElem?_cons_succ]
          rw [ih vs h' n hdf, List.take_succ_cons, List.filter_cons_of_pos hp]
          simp only [List.length_cons, List.getElem?_cons_succ]

/-- A matched row at position `i` contributes to the matched count, so
the number of matches strictly before `i` is below the total. -/
theorem filter_take_lt (l : List β) (p : β → Bool) (i : Nat) (ri : β)
    (h : l[i]? = some ri) (hp : p ri = true) :
    ((l.take i).filter p).length < (l.filter p).length := by
  obtain ⟨hi, hget⟩ := List.getElem?_eq_some.mp h
  conv_rhs => rw [← List.take_append_drop i l]
  rw [List.filter_append, List.length_append, List.drop_eq_getElem_cons hi, hget,
    List.filter_cons_of_pos hp]
  simp only [List.length_cons]
  omega

/-! ### Claim C4 -/

/-- C4 (counterexample).  The claim says `replace_rows` raises *iff*
the replacement contains a row whose column value differs from the
given value.  Here every replacement row has the required value `"A"`
in column 0, yet the call raises, because the receiver has one
matching row while the replacement has two, and the underlying
positional assignment rejects the length mismatch. -/
theorem C4_replace_rows_error_without_bad_row :
    (∀ r ∈ ([["A", "x"], ["A", "y"]] : List (List String)), r[0]? = some "A") ∧
      isError (replace_rows 0 0 "A" [["A", "w"], ["B", "z"]] [["A", "x"], ["A", "y"]]) = true := by
  constructor <;> decide

/-- C4 (amended).  `replace_rows(column, value, replacement)` raises
iff the replacement contains a row whose column value differs from
`value`, **or** the row counts are incompatible with the positional
assignment (replacement rows ≠ matched receiver rows, and the
replacement is not a single row, which numpy broadcasts); nothing is
written when it raises (the checks precede the write).  When the
precondition holds and the counts agree, every receiver row with
`column == value` is substituted, in order, by the corresponding
replacement row, and every other row is unchanged. -/
theorem C4_replace_rows (ciSelf ciRepl : Nat) (value : α) [DecidableEq α]
    (df replacement : List (List α)) :
    (isError (replace_rows ciSelf ciRepl value df replacement) = true ↔
      (∃ r ∈ replacement, r[ciRepl]? ≠ some value) ∨
        (replacement.length ≠ (df.filter fun r => r[ciSelf]? = some value).length ∧
          replacement.length ≠ 1)) ∧
    ((∀ r ∈ replacement, r[ciRepl]? = some value) →
      replacement.length = (df.filter fun r => r[ciSelf]? = some value).length →
      ∃ out, replace_rows ciSelf ciRepl value df replacement = .ok out ∧
        out.length = df.length ∧
        (∀ (i : Nat) (ri : List α), df[i]? = some ri → ¬ (ri[ciSelf]? = some value) →
          out[i]? = some ri) ∧
        (∀ (i : Nat) (ri : List α), df[i]? = some ri → ri[ciSelf]? = some value →
          out[i]? = replacement[((df.take i).filter fun r => r[ciSelf]? = some value).length]?)) := by
  have hfilterempty : ((replacement.filter fun r => ¬ (r[ciRepl]? = some value)).isEmpty = true) ↔
      ∀ r ∈ replacement, r[ciRepl]? = some value := by
    rw [List.isEmpty_iff, List.filter_eq_nil_iff]
    constructor
    · intro h r hr
      have := h r hr
      simpa using this
    · intro h r hr
      simpa using h r hr
  constructor
  · unfold replace_rows
    by_cases hpre : ∀ r ∈ replacement, r[ciRepl]? = some value
    · rw [if_pos (hfilterempty.mpr hpre)]
      by_cases hlen : replacement.length = (df.filter fun r => r[ciSelf]? = some value).length
      · rw [if_pos hlen]
        refine iff_of_false (by simp [isError]) ?_
        rintro (⟨r, hr, hne⟩ | ⟨h1, -⟩)
        · exact hne (hpre r hr)
        · exact h1 hlen
      · rw [if_neg hlen]
        rcases replacement with - | ⟨v, vs⟩
        · exact iff_of_true (by simp [isError]) (Or.inr ⟨hlen, by simp⟩)
        · cases vs with
          | nil =>
            refine iff_of_false (by simp [isError]) ?_
            rintro (⟨r, hr, hne⟩ | ⟨-, h2⟩)
            · exact hne (hpre r hr)
            · exact h2 rfl
          | cons w ws =>
            exact iff_of_true (by simp [isError]) (Or.inr ⟨hlen, by simp⟩)
    · rw [if_neg (fun hc => hpre (hfilterempty.mp hc))]
      refine iff_of_true (by simp [isError]) ?_
      push_neg at hpre
      obtain ⟨r, hr, hne⟩ := hpre
      exact Or.inl ⟨r, hr, hne⟩
  · intro hpre hlen
    refine ⟨writeMatched (fun r => decide (r[ciSelf]? = some value)) df replacement, ?_, ?_, ?_, ?_⟩
    · unfold replace_rows
      rw [if_pos (hfilterempty.mpr hpre), if_pos hlen]
    · exact writeMatched_length _ df replacement
    · intro i ri hdf hmask
      rw [writeMatched_getElem? _ df replacement hlen i ri hdf]
      simp [hmask]
    · intro i ri hdf hmask
      rw [writeMatched_getElem? _ df replacement hlen i ri hdf]
      simp [hmask]

/-- C4 witness: receiver `[[A,1],[B,2],[A,3]]`, replacement
`[[A,x],[A,y]]` (two matching receiver rows, two replacement rows):
the call succeeds, the unmatched row `[B,2]` is unchanged at position
1, and position 2 (the second match) receives the second replacement
row `[A,y]`. -/
theorem C4_replace_rows_witness :
    ∃ out, replace_rows 0 0 "A" [["A", "1"], ["B", "2"], ["A", "3"]]
        [["A", "x"], ["A", "y"]] = .ok out ∧
      out[1]? = some ["B", "2"] ∧ out[2]? = some ["A", "y"] := by
  obtain ⟨out, hok, -, hkeep, hsub⟩ :=
    (C4_replace_rows 0 0 "A" [["A", "1"], ["B", "2"], ["A", "3"]]
      [["A", "x"], ["A", "y"]]).2 (by decide) (by decide)
  refine ⟨out, hok, ?_, ?_⟩
  · exact hkeep 1 ["B", "2"] (by decide) (by decide)
  · rw [hsub 2 ["A", "3"] (by decide) (by decide)]
    decide

/-! ### Claim C10 -/

/-- C10 (counterexample).  The claim says the assignment succeeds only
when the replacement has exactly as many rows as the receiver has
matching rows.  Here the receiver has two matching rows and the
replacement a single one, yet the call succeeds: numpy broadcasts the
single row to every matched position. -/
theorem C10_single_row_broadcasts :
    replace_rows 0 0 "A" [["A", "1"], ["A", "2"], ["B", "3"]] [["A", "x"]] =
        .ok [["A", "x"], ["A", "x"], ["B", "3"]] ∧
      ([["A", "1"], ["A", "2"], ["B", "3"]].filter
        fun r : List String => r[0]? = some "A").length = 2 := by
  constructor <;> decide

/-- C10 (amended).  `replace_rows` writes the replacement into the
matched rows positionally — rows are bare cell lists, written
column-position by column-position, so the replacement must share the
receiver's column order — and, given the precondition that every
replacement row matches, it succeeds iff the replacement has exactly
as many rows as the receiver has rows with `column == value` **or**
consists of exactly one row, which is broadcast to every matched
row. -/
theorem C10_replace_rows_positional (ciSelf ciRepl : Nat) (value : α) [DecidableEq α]
    (df replacement : List (List α))
    (hpre : ∀ r ∈ replacement, r[ciRepl]? = some value) :
    ((∃ out, replace_rows ciSelf ciRepl value df replacement = .ok out) ↔
      (replacement.length = (df.filter fun r => r[ciSelf]? = some value).length ∨
        replacement.length = 1)) ∧
    (∀ v, replacement = [v] →
      replace_rows ciSelf ciRepl value df replacement =
        .ok (df.map fun r => if r[ciSelf]? = some value then v else r)) := by
  have hfilterempty : ((replacement.filter fun r => ¬ (r[ciRepl]? = some value)).isEmpty = true) := by
    rw [List.isEmpty_iff, List.filter_eq_nil_iff]
    intro r hr
    simpa using hpre r hr
  constructor
  · unfold replace_rows
    rw [if_pos hfilterempty]
    by_cases hlen : replacement.length = (df.filter fun r => r[ciSelf]? = some value).length
    · rw [if_pos hlen]
      exact iff_of_true ⟨_, rfl⟩ (Or.inl hlen)
    · rw [if_neg hlen]
      rcases replacement with - | ⟨v, vs⟩
      · refine iff_of_false ?_ ?_
        · rintro ⟨out, hout⟩
          exact Except.noConfusion hout
        · rintro (h | h)
          · exact hlen h
          · exact Nat.noConfusion h
      · cases vs with
        | nil => exact iff_of_true ⟨_, rfl⟩ (Or.inr rfl)
        | cons w ws =>
          refine iff_of_false ?_ ?_
          · rintro ⟨out, hout⟩
            exact Except.noConfusion hout
          · rintro (h | h)
            · exact hlen h
            · simp at h
  · intro v hrepl
    subst hrepl
    unfold replace_rows
    rw [if_pos hfilterempty]
    by_cases hm : ([v] : List (List α)).length =
        (df.filter fun r => r[ciSelf]? = some value).length
    · rw [if_pos hm]
      congr 1
      refine List.ext_getElem? ?_
      intro n
      by_cases hn : n < df.length
      · have hrn : df[n]? = some df[n] := List.getElem?_eq_getElem hn
        rw [writeMatched_getElem? _ df [v] hm n _ hrn, List.getElem?_map, hrn]
        by_cases hmask : (df[n])[ciSelf]? = some value
        · have hlt := filter_take_lt df (fun r => decide (r[ciSelf]? = some value)) n _ hrn
            (by simpa using hmask)
          rw [← hm] at hlt
          have hzero : ((df.take n).filter fun r => decide (r[ciSelf]? = some value)).length = 0 := by
            simpa using Nat.lt_one_iff.mp hlt
          rw [hzero]
          simp [hmask]
        · simp [hmask]
      · rw [List.getElem?_eq_none (by rw [writeMatched_length]; omega),
          List.getElem?_eq_none (by rw [List.length_map]; omega)]
    · rw [if_neg hm]

/-- C10 witness: the amended theorem applied to a single-row
replacement against a receiver with two matching rows — the
precondition holds and the call succeeds through the broadcast
branch. -/
theorem C10_replace_rows_positional_witness :
    ∃ out, replace_rows 0 0 "A" [["A", "1"], ["A", "2"], ["B", "3"]] [["A", "x"]] =
      .ok out := by
  have h := C10_replace_rows_positional 0 0 "A" [["A", "1"], ["A", "2"], ["B", "3"]]
    [["A", "x"]] (by decide)
  exact h.1.mpr (Or.inr rfl)

/-! ## `group_aggregate` (src/data/pandasutils.py 31-57)

```python
group_by = self.groupby(group_by)
group_by = group_by.mean() if avg else group_by.sum()
return group_by.reset_index()
```

pandas semantics embedded here (the `sum` path; no claim exercises
`avg`):
* rows whose group key is null are dropped by `groupby`
  (`dropna=True`) — call sites below make this explicit by building
  the key with a partial projection;
* the distinct keys are sorted ascending (`groupby(sort=True)`); the
  key order is supplied as an explicit boolean relation `le`, the
  order pandas uses on the key column(s);
* each non-key numeric column is summed per group with nulls counted
  as 0 (`sum` with the default `min_count=0`), so every output cell is
  a number (`some _`), never null;
* non-numeric non-key columns are dropped — a row is its key plus the
  positional list of its numeric value cells. -/

/-- Per-column sum of the value cells of a group (a null cell counts
as 0, the result is always `some`). -/
def sumVals : List (List (Option Int)) → List (Option Int)
  | [] => []
  | [v] => v.map fun c => some (c.getD 0)
  | v :: rest => List.zipWith (fun c s => some (c.getD 0 + s.getD 0)) v (sumVals rest)

/-- The `group_aggregate` table primitive (summing variant). -/
def group_aggregate (le : κ → κ → Bool) [DecidableEq κ]
    (rows : List (κ × List (Option Int))) : List (κ × List (Option Int)) :=
  (((rows.map Prod.fst).dedup).insertionSort fun a b => le a b = true).map fun k =>
    (k, sumVals ((rows.filter fun r => r.1 = k).map Prod.snd))

/-- Every cell of the column-wise clamped-null sum of two rows is a
number. -/
theorem zipWith_someAdd_all_some (v w : List (Option Int)) :
    ∀ c ∈ List.zipWith (fun c s => some (c.getD 0 + s.getD 0)) v w, ∃ n, c = some n := by
  induction v generalizing w with
  | nil =>
    intro c hc
    simp at hc
  | cons a as ih =>
    cases w with
    | nil =>
      intro c hc
      simp at hc
    | cons b bs =>
      intro c hc
      rw [List.zipWith_cons_cons] at hc
      rcases List.mem_cons.mp hc with rfl | hc'
      · exact ⟨_, rfl⟩
      · exact ih bs c hc'

/-- Every cell produced by `sumVals` on a non-empty group is a
number. -/
theorem sumVals_all_some (l : List (List (Option Int))) (hne : l ≠ []) :
    ∀ c ∈ sumVals l, ∃ n, c = some n := by
  cases l with
  | nil => exact absurd rfl hne
  | cons v rest =>
    cases rest with
    | nil =>
      intro c hc
      simp only [sumVals, List.mem_map] at hc
      obtain ⟨a, -, rfl⟩ := hc
      exact ⟨a.getD 0, rfl⟩
    | cons w ws =>
      exact fun c hc => zipWith_someAdd_all_some v (sumVals (w :: ws)) c hc

/-- Mapping `some ∘ getD 0` over a list of cells that are all numbers
is the identity. -/
theorem map_getD_eq_self (vs : List (Option Int)) (h : ∀ c ∈ vs, ∃ n, c = some n) :
    (vs.map fun c => some (c.getD 0)) = vs := by
  induction vs with
  | nil => rfl
  | cons c cs ih =>
    obtain ⟨n, rfl⟩ := h c (List.mem_cons_self c cs)
    simp only [List.map_cons, Option.getD_some, List.cons.injEq, true_and]
    exact ih fun c hc => h c (List.mem_cons_of_mem _ hc)

/-- In a table whose keys are distinct, filtering by the key of a
member row yields exactly that row. -/
theorem filter_eq_singleton_of_nodup_keys [DecidableEq κ] (l : List (κ × β))
    (hnd : (l.map Prod.fst).Nodup) (k : κ) (v : β) (hmem : (k, v) ∈ l) :
    l.filter (fun r => r.1 = k) = [(k, v)] := by
  induction l with
  | nil => simp at hmem
  | cons a rest ih =>
    simp only [List.map_cons, List.nodup_cons] at hnd
    rcases List.mem_cons.mp hmem with rfl | hmem'
    · rw [List.filter_cons_of_pos (by simp)]
      have : rest.filter (fun r => r.1 = k) = [] := by
        rw [List.filter_eq_nil_iff]
        intro r hr hrk
        refine hnd.1 ?_
        have heq : r.1 = k := by simpa using hrk
        have hr1 : r.1 ∈ rest.map Prod.fst := List.mem_map_of_mem Prod.fst hr
        exact heq ▸ hr1
      rw [this]
    · have hak : ¬ (a.1 = k) := by
        intro h
        refine hnd.1 ?_
        have : k ∈ rest.map Prod.fst := by
          simpa using List.mem_map_of_mem Prod.fst hmem'
        exact h ▸ this
      rw [List.filter_cons_of_neg (by simpa using hak)]
      exact ih hnd.2 hmem'

/-! ### Claim C8 -/

/-- C8. `group_aggregate` is idempotent on tables whose rows already
have distinct key-tuples: re-applying it with the same keys yields the
same table — same rows, same values, same order.  (`le` is the key
order pandas sorts the group keys with, so it is total and
transitive.)  The first application sorts the distinct keys and turns
every cell into a number; the second application then finds singleton
groups in sorted order and reproduces them verbatim. -/
theorem C8_group_aggregate_idempotent (le : κ → κ → Bool) [DecidableEq κ]
    (htot : ∀ a b, le a b = true ∨ le b a = true)
    (htrans : ∀ a b c, le a b = true → le b c = true → le a c = true)
    (rows : List (κ × List (Option Int)))
    (hkeys : (rows.map Prod.fst).Nodup) :
    group_aggregate le (group_aggregate le rows) = group_aggregate le rows := by
  haveI : IsTotal κ (fun a b => le a b = true) := ⟨htot⟩
  haveI : IsTrans κ (fun a b => le a b = true) := ⟨htrans⟩
  have hS_nodup : (((rows.map Prod.fst).dedup).insertionSort fun a b => le a b = true).Nodup :=
    ((List.perm_insertionSort _ _).nodup_iff).mpr (List.nodup_dedup _)
  have hS_sorted : List.Sorted (fun a b => le a b = true)
      (((rows.map Prod.fst).dedup).insertionSort fun a b => le a b = true) :=
    List.sorted_insertionSort _ _
  have hgdef : group_aggregate le rows =
      (((rows.map Prod.fst).dedup).insertionSort fun a b => le a b = true).map
        (fun k => (k, sumVals ((rows.filter fun r0 => r0.1 = k).map Prod.snd))) := rfl
  have hgmap : (group_aggregate le rows).map Prod.fst =
      ((rows.map Prod.fst).dedup).insertionSort fun a b => le a b = true := by
    rw [hgdef, List.map_map]
    exact List.map_id _
  have hallsome : ∀ p ∈ group_aggregate le rows, ∀ c ∈ p.2, ∃ n, c = some n := by
    intro p hmem c hc
    rw [hgdef, List.mem_map] at hmem
    obtain ⟨k0, hk0, rfl⟩ := hmem
    refine sumVals_all_some _ ?_ c hc
    have hk1 : k0 ∈ (rows.map Prod.fst).dedup := ((List.perm_insertionSort _ _).mem_iff).mp hk0
    have hk2 : k0 ∈ rows.map Prod.fst := List.mem_dedup.mp hk1
    rw [List.mem_map] at hk2
    obtain ⟨r0, hr0, rfl⟩ := hk2
    intro hcon
    have hfil : rows.filter (fun r1 => r1.1 = r0.1) = [] := List.map_eq_nil_iff.mp hcon
    have hr0mem : r0 ∈ rows.filter fun r1 => r1.1 = r0.1 := List.mem_filter.mpr ⟨hr0, by simp⟩
    rw [hfil] at hr0mem
    simp at hr0mem
  have hgnodup : ((group_aggregate le rows).map Prod.fst).Nodup := by
    rw [hgmap]
    exact hS_nodup
  have houter : group_aggregate le (group_aggregate le rows) =
      ((((group_aggregate le rows).map Prod.fst).dedup).insertionSort
          fun a b => le a b = true).map
        (fun k => (k, sumVals (((group_aggregate le rows).filter
          fun r0 => r0.1 = k).map Prod.snd))) := rfl
  rw [houter, hgmap, List.dedup_eq_self.mpr hS_nodup, hS_sorted.insertionSort_eq]
  conv_rhs => rw [hgdef]
  refine List.map_congr_left ?_
  intro k hk
  have hFk_mem : (k, sumVals ((rows.filter fun r0 => r0.1 = k).map Prod.snd)) ∈
      group_aggregate le rows := by
    rw [hgdef]
    exact List.mem_map_of_mem _ hk
  have hfilter : (group_aggregate le rows).filter (fun r0 => r0.1 = k) =
      [(k, sumVals ((rows.filter fun r0 => r0.1 = k).map Prod.snd))] :=
    filter_eq_singleton_of_nodup_keys _ hgnodup k _ hFk_mem
  rw [hfilter]
  have hsingle : ((sumVals ((rows.filter fun r0 => r0.1 = k).map Prod.snd)).map
      fun c => some (c.getD 0)) = sumVals ((rows.filter fun r0 => r0.1 = k).map Prod.snd) :=
    map_getD_eq_self _ (fun c hc => hallsome _ hFk_mem c hc)
  exact congrArg (fun vs => (k, vs)) hsingle

/-- C8 witness: the theorem applied to the two-row unique-keyed table
`[(2, [5, null]), (1, [null, 3])]` over `Nat` keys ordered by `≤`. -/
theorem C8_group_aggregate_idempotent_witness :
    (([((2 : Nat), [some (5 : Int), none]), (1, [none, some 3])].map Prod.fst).Nodup) ∧
      group_aggregate (fun a b : Nat => decide (a ≤ b))
          (group_aggregate (fun a b => decide (a ≤ b))
            [(2, [some 5, none]), (1, [none, some 3])]) =
        group_aggregate (fun a b => decide (a ≤ b))
          [(2, [some 5, none]), (1, [none, some 3])] := by
  refine ⟨by decide, ?_⟩
  exact C8_group_aggregate_idempotent _
    (fun a b => (Nat.le_total a b).imp decide_eq_true decide_eq_true)
    (fun a b c hab hbc =>
      decide_eq_true (Nat.le_trans (of_decide_eq_true hab) (of_decide_eq_true hbc)))
    _ (by decide)

/-! ## `pd.merge(..., how='outer')` and `CustomDataset.merge`
(src/data/loader.py 36-82, src/data/datasets.py 24-72)

`pd.merge(left, right, on=keys, how='outer', sort=False)`, as called by
`CustomDataset.merge(df)` with `df` the left frame and `read()`'s
result the right frame:
* output rows are grouped by join key; keys appear in order of first
  appearance scanning the left frame's keys and then the right
  frame's (the factorize-then-full-outer-join implementation);
* within one key the matches are the left-major cross product of the
  left and right rows carrying it;
* a key present on only one side keeps that side's rows with the
  other side's columns null.
A merged row is the join key plus an optional left payload and an
optional right payload (null = that side absent). -/

/-- The blockmodel of one join key: the left-major cross product of the
two sides' rows for that key, one-sided rows padded with nulls. -/
def joinKeyRows [DecidableEq κ] (left : List (κ × L)) (right : List (κ × R)) (k : κ) :
    List (κ × Option L × Option R) :=
  match left.filter fun r => r.1 = k, right.filter fun r => r.1 = k with
  | [], rs => rs.map fun r => (k, none, some r.2)
  | ls, [] => ls.map fun l => (k, some l.2, none)
  | ls, rs => ls.flatMap fun l => rs.map fun r => (k, some l.2, some r.2)

/-- Full outer join on a key. -/
def outerJoin [DecidableEq κ] (left : List (κ × L)) (right : List (κ × R)) :
    List (κ × Option L × Option R) :=
  ((left.map Prod.fst ++ right.map Prod.fst).dedup).flatMap (joinKeyRows left right)

/-- A Dataset Descriptor as `CustomDataset.merge` consumes it: the
(lazily read and pre-processed) right table and the optional
post-merge transform.  `merge` outer-joins the given left table with
`read()`'s result and applies the post-processor if present. -/
structure Dataset (κ L R : Type) where
  read : List (κ × R)
  postProcessor : Option (List (κ × Option L × Option R) → List (κ × Option L × Option R))

/-- `CustomDataset.merge(df)`. -/
def Dataset.merge [DecidableEq κ] (ds : Dataset κ L R) (df : List (κ × L)) :
    List (κ × Option L × Option R) :=
  let merged := outerJoin df ds.read
  match ds.postProcessor with
  | some post => post merged
  | none => merged

/-- In a table with distinct keys every per-key group has at most one
row. -/
theorem filter_key_length_le_one [DecidableEq κ] (l : List (κ × β))
    (h : (l.map Prod.fst).Nodup) (k : κ) :
    (l.filter fun r => r.1 = k).length ≤ 1 := by
  induction l with
  | nil => simp
  | cons a rest ih =>
    simp only [List.map_cons, List.nodup_cons] at h
    by_cases hk : a.1 = k
    · rw [List.filter_cons_of_pos (by simpa using hk)]
      have hrest : rest.filter (fun r => r.1 = k) = [] := by
        rw [List.filter_eq_nil_iff]
        intro r hr hrk
        refine h.1 ?_
        have heq : r.1 = a.1 := by
          have : r.1 = k := by simpa using hrk
          rw [this, hk]
        have hr1 : r.1 ∈ rest.map Prod.fst := List.mem_map_of_mem Prod.fst hr
        exact heq ▸ hr1
      rw [hrest]
      simp
    · rw [List.filter_cons_of_neg (by simpa using hk)]
      exact ih h.2

/-- A key occurring in a table has a non-empty per-key group. -/
theorem filter_key_ne_nil_of_mem [DecidableEq κ] (l : List (κ × β)) (k : κ)
    (h : k ∈ l.map Prod.fst) : l.filter (fun r => r.1 = k) ≠ [] := by
  rw [List.mem_map] at h
  obtain ⟨a, ha, rfl⟩ := h
  intro hcon
  have : a ∈ l.filter fun r => r.1 = a.1 := List.mem_filter.mpr ⟨ha, by simp⟩
  rw [hcon] at this
  simp at this

/-- A list of length at most one is empty or a singleton. -/
theorem eq_nil_or_singleton_of_length_le_one (l : List β) (h : l.length ≤ 1) :
    l = [] ∨ ∃ a, l = [a] := by
  cases l with
  | nil => exact Or.inl rfl
  | cons a rest =>
    cases rest with
    | nil => exact Or.inr ⟨a, rfl⟩
    | cons b bs => simp at h

/-- Mapping a singleton producer over a list and flattening is a
plain map. -/
theorem flatMap_singleton_fn (l : List β) (g : β → δ) :
    (l.flatMap fun x => [g x]) = l.map g := by
  induction l with
  | nil => rfl
  | cons x xs ih => rw [List.flatMap_cons, List.map_cons, ih, List.singleton_append]

/-- When both sides carry distinct keys, the block of one occurring
key is a single row, keyed by that key. -/
theorem joinKeyRows_map_fst [DecidableEq κ] (left : List (κ × L)) (right : List (κ × R))
    (hl : (left.map Prod.fst).Nodup) (hr : (right.map Prod.fst).Nodup) (k : κ)
    (hkmem : k ∈ left.map Prod.fst ∨ k ∈ right.map Prod.fst) :
    (joinKeyRows left right k).map Prod.fst = [k] := by
  unfold joinKeyRows
  rcases eq_nil_or_singleton_of_length_le_one _ (filter_key_length_le_one left hl k) with
    hls | ⟨a, hls⟩ <;>
    rcases eq_nil_or_singleton_of_length_le_one _ (filter_key_length_le_one right hr k) with
      hrs | ⟨b, hrs⟩ <;> rw [hls, hrs]
  · rcases hkmem with hkl | hkr
    · exact absurd hls (filter_key_ne_nil_of_mem left k hkl)
    · exact absurd hrs (filter_key_ne_nil_of_mem right k hkr)
  · rfl
  · rfl
  · rfl

/-- When both sides of an outer join have distinct keys, the join's
key column is exactly the deduplicated concatenation of the two key
columns (each key contributes exactly one row). -/
theorem outerJoin_map_fst [DecidableEq κ] (left : List (κ × L)) (right : List (κ × R))
    (hl : (left.map Prod.fst).Nodup) (hr : (right.map Prod.fst).Nodup) :
    (outerJoin left right).map Prod.fst = (left.map Prod.fst ++ right.map Prod.fst).dedup := by
  unfold outerJoin
  rw [List.map_flatMap]
  have hpt : ∀ k ∈ (left.map Prod.fst ++ right.map Prod.fst).dedup,
      (joinKeyRows left right k).map Prod.fst = (fun k => [k]) k := by
    intro k hk
    have hkmem : k ∈ left.map Prod.fst ∨ k ∈ right.map Prod.fst := by
      have := List.mem_dedup.mp hk
      simpa using this
    exact joinKeyRows_map_fst left right hl hr k hkmem
  rw [List.flatMap_congr hpt]
  simp

/-- Outer join of two distinct-keyed tables is distinct-keyed. -/
theorem outerJoin_keys_nodup [DecidableEq κ] (left : List (κ × L)) (right : List (κ × R))
    (hl : (left.map Prod.fst).Nodup) (hr : (right.map Prod.fst).Nodup) :
    ((outerJoin left right).map Prod.fst).Nodup := by
  rw [outerJoin_map_fst left right hl hr]
  exact List.nodup_dedup _

/-! ### Claim C5 -/

/-- C5 (counterexample).  The claim quantifies over all Dataset
Descriptors with empty `read()` result, but `merge` also applies the
descriptor's `postProcessor` to the joined table.  A descriptor whose
post-processor keeps only rows with a non-null right side — exactly
what the registered populations dataset's post-processor does with
null populations — maps the one-row table `A = [(0, 0)]` to the empty
table instead of `A` with an all-null added column. -/
theorem C5_postprocessor_changes_result :
    Dataset.merge (κ := Nat) (L := Nat) (R := Nat)
        { read := [], postProcessor := some fun rows => rows.filter fun r => r.2.2.isSome }
        [(0, 0)] ≠ [(0, some 0, none)] := by
  decide

/-- C5 (amended).  For a Dataset Descriptor with **no postProcessor**
whose `read()` result is empty, `merge` returns the left table `A`
unchanged — same rows, same values, same row order — except for the
dataset's added columns, which are null on every row; `A` must carry
at most one row per join key (with duplicated join keys the outer
join regroups rows by key first-appearance).  With a postProcessor the
joined result is further transformed and may change arbitrarily. -/
theorem C5_merge_empty_dataset [DecidableEq κ] (ds : Dataset κ L R) (A : List (κ × L))
    (hread : ds.read = []) (hpost : ds.postProcessor = none)
    (hnodup : (A.map Prod.fst).Nodup) :
    ds.merge A = A.map fun r => (r.1, some r.2, none) := by
  have hmerge : ds.merge A = outerJoin A ds.read := by
    unfold Dataset.merge
    rw [hpost]
  rw [hmerge, hread]
  unfold outerJoin
  rw [show (A.map Prod.fst ++ ([] : List (κ × R)).map Prod.fst) = A.map Prod.fst by simp,
    List.dedup_eq_self.mpr hnodup, List.flatMap_map]
  have hpt : ∀ a ∈ A, joinKeyRows A ([] : List (κ × R)) a.1 =
      (fun a => [(a.1, some a.2, none)]) a := by
    intro a ha
    unfold joinKeyRows
    rw [show A.filter (fun r => r.1 = a.1) = [(a.1, a.2)] from
      filter_eq_singleton_of_nodup_keys A hnodup a.1 a.2 ha]
    rfl
  rw [List.flatMap_congr hpt]
  exact flatMap_singleton_fn A fun a => (a.1, some a.2, none)

/-- C5 witness: the amended theorem applied to the two-row table
`[(3, 30), (1, 10)]` and a post-processor-free descriptor with empty
read result. -/
theorem C5_merge_empty_dataset_witness :
    Dataset.merge (κ := Nat) (L := Nat) (R := Nat) { read := [], postProcessor := none }
        [(3, 30), (1, 10)] = [(3, some 30, none), (1, some 10, none)] := by
  rw [C5_merge_empty_dataset _ _ rfl rfl (by decide)]
  decide

/-! ## `calculate_population_metrics` (src/data/loader.py 357-389)

```python
df[UNVACCINATED] = df[POPULATION] - df[FULLY_VACCINATED]
for conversion in fields:   # NewCases, NewDeaths
    df[field] = (df[conversion_field] / df[POPULATION]) * 100000
    df[field] = df[field].round(decimals=2)
df[PERCENTAGE_VACCINATED] = (df[FULLY_VACCINATED] / df[POPULATION]) * 100
df[PERCENTAGE_VACCINATED] = df[PERCENTAGE_VACCINATED].round(decimals=1)
df.drop(POPULATION, axis=1, inplace=True)
```

Cells are exact rationals standing in for floats.  A null operand
propagates null through `-`, `/` and `round` (NaN propagation);
division by a zero population yields pandas `inf`/`NaN` — never an
exception — modelled here, like null, as undefined (`none`).
`.round(n)` is numpy's round-half-to-even at `n` decimal places,
computed exactly.  The population column is dropped: the output row
type has no population field. -/

/-- Null-propagating subtraction. -/
def subOpt : Option ℚ → Option ℚ → Option ℚ
  | some a, some b => some (a - b)
  | _, _ => none

/-- Null-propagating division; a zero divisor gives undefined. -/
def divOpt : Option ℚ → Option ℚ → Option ℚ
  | some a, some b => if b = 0 then none else some (a / b)
  | _, _ => none

/-- numpy's round-half-to-even on an exact rational. -/
def roundHalfEven (q : ℚ) : ℤ :=
  if q - ⌊q⌋ < 1/2 then ⌊q⌋
  else if 1/2 < q - ⌊q⌋ then ⌊q⌋ + 1
  else if ⌊q⌋ % 2 = 0 then ⌊q⌋ else ⌊q⌋ + 1

/-- `Series.round(decimals=d)`: round half to even at `d` decimal
places, nulls pass through. -/
def roundTo (d : Nat) (x : Option ℚ) : Option ℚ :=
  x.map fun q => (roundHalfEven (q * 10 ^ d) : ℚ) / 10 ^ d

/-- A row as `calculate_population_metrics` reads it: the four columns
it computes with, and every other column bundled in `other`. -/
structure MetricsRow (α : Type) where
  population : Option ℚ
  fullyVaccinated : Option ℚ
  newCases : Option ℚ
  newDeaths : Option ℚ
  other : α
deriving DecidableEq, Repr

/-- A row of the output: the original columns minus the dropped
population, plus the four derived columns. -/
structure MetricsOut (α : Type) where
  fullyVaccinated : Option ℚ
  newCases : Option ℚ
  newDeaths : Option ℚ
  unvaccinated : Option ℚ
  casesPerHundredThousand : Option ℚ
  deathsPerHundredThousand : Option ℚ
  percentageVaccinated : Option ℚ
  other : α
deriving DecidableEq, Repr

/-- The row-wise computation of `calculate_population_metrics`. -/
def calcMetricsRow (r : MetricsRow α) : MetricsOut α :=
  { fullyVaccinated := r.fullyVaccinated
    newCases := r.newCases
    newDeaths := r.newDeaths
    unvaccinated := subOpt r.population r.fullyVaccinated
    casesPerHundredThousand := roundTo 2 ((divOpt r.newCases r.population).map (· * 100000))
    deathsPerHundredThousand := roundTo 2 ((divOpt r.newDeaths r.population).map (· * 100000))
    percentageVaccinated := roundTo 1 ((divOpt r.fullyVaccinated r.population).map (· * 100))
    other := r.other }

/-- `calculate_population_metrics`: all column arithmetic is row-local,
so the table-level function is the row map. -/
def calculate_population_metrics (df : List (MetricsRow α)) : List (MetricsOut α) :=
  df.map calcMetricsRow

/-- Round-half-to-even lands within half a unit. -/
theorem roundHalfEven_dist (q : ℚ) : |(roundHalfEven q : ℚ) - q| ≤ 1/2 := by
  unfold roundHalfEven
  have hfl : (⌊q⌋ : ℚ) ≤ q := Int.floor_le q
  have hfu : q < ⌊q⌋ + 1 := Int.lt_floor_add_one q
  by_cases h1 : q - ⌊q⌋ < 1/2
  · rw [if_pos h1, abs_le]
    constructor <;> push_cast <;> linarith
  · rw [if_neg h1]
    by_cases h2 : 1/2 < q - ⌊q⌋
    · rw [if_pos h2, abs_le]
      constructor <;> push_cast <;> linarith
    · rw [if_neg h2]
      have heq : q - ⌊q⌋ = 1/2 := le_antisymm (not_lt.mp h2) (not_lt.mp h1)
      by_cases h3 : ⌊q⌋ % 2 = 0
      · rw [if_pos h3, abs_le]
        constructor <;> push_cast <;> linarith
      · rw [if_neg h3, abs_le]
        constructor <;> push_cast <;> linarith

/-- Rounding to `d` decimal places yields an integer multiple of
`10 ^ (-d)` within half of that step. -/
theorem roundTo_dist (d : Nat) (q : ℚ) :
    ∃ z : ℤ, roundTo d (some q) = some ((z : ℚ) / 10 ^ d) ∧
      |(z : ℚ) / 10 ^ d - q| ≤ 1 / (2 * 10 ^ d) := by
  refine ⟨roundHalfEven (q * 10 ^ d), rfl, ?_⟩
  have h := roundHalfEven_dist (q * 10 ^ d)
  have hpow : (0:ℚ) < 10 ^ d := by positivity
  have habs : |(roundHalfEven (q * 10 ^ d) : ℚ) / 10 ^ d - q| =
      |(roundHalfEven (q * 10 ^ d) : ℚ) - q * 10 ^ d| / 10 ^ d := by
    rw [show (roundHalfEven (q * 10 ^ d) : ℚ) / 10 ^ d - q =
      ((roundHalfEven (q * 10 ^ d) : ℚ) - q * 10 ^ d) / 10 ^ d by field_simp <;> ring]
    rw [abs_div, abs_of_pos hpow]
  rw [habs, show (1:ℚ) / (2 * 10 ^ d) = (1/2) / 10 ^ d by rw [div_div]]
  exact (div_le_div_iff_of_pos_right hpow).mpr h

/-! ### Claim C7 -/

/-- C7. `calculate_population_metrics` never raises: it maps each row
to an output row (same row count, `other` columns untouched) whose
population column is gone (the output row type has none), with
`unvaccinated = population − fullyVaccinated` (null if either operand
is null); when the population is null or zero the three
division-derived columns are null/undefined; and when the population
`p` is a non-zero number, each ratio column is the claimed quotient
rounded to the claimed number of decimal places: an integer multiple
of 1/100 within 1/200 of `value/p × 100000` for new cases and new
deaths, and an integer multiple of 1/10 within 1/20 of
`fullyVaccinated/p × 100`. -/
theorem C7_calculate_population_metrics (df : List (MetricsRow α)) :
    (calculate_population_metrics df).length = df.length ∧
    ∀ (i : Nat) (r : MetricsRow α), df[i]? = some r →
      ∃ o : MetricsOut α, (calculate_population_metrics df)[i]? = some o ∧
        o.other = r.other ∧
        o.fullyVaccinated = r.fullyVaccinated ∧
        o.newCases = r.newCases ∧
        o.newDeaths = r.newDeaths ∧
        o.unvaccinated = subOpt r.population r.fullyVaccinated ∧
        ((r.population = none ∨ r.population = some 0) →
          o.casesPerHundredThousand = none ∧ o.deathsPerHundredThousand = none ∧
            o.percentageVaccinated = none) ∧
        (∀ p c, r.population = some p → p ≠ 0 → r.newCases = some c →
          ∃ z : ℤ, o.casesPerHundredThousand = some ((z : ℚ) / 100) ∧
            |(z : ℚ) / 100 - c / p * 100000| ≤ 1 / 200) ∧
        (∀ p c, r.population = some p → p ≠ 0 → r.newDeaths = some c →
          ∃ z : ℤ, o.deathsPerHundredThousand = some ((z : ℚ) / 100) ∧
            |(z : ℚ) / 100 - c / p * 100000| ≤ 1 / 200) ∧
        (∀ p f, r.population = some p → p ≠ 0 → r.fullyVaccinated = some f →
          ∃ z : ℤ, o.percentageVaccinated = some ((z : ℚ) / 10) ∧
            |(z : ℚ) / 10 - f / p * 100| ≤ 1 / 20) := by
  constructor
  · simp [calculate_population_metrics]
  intro i r hri
  obtain ⟨pop, fully, nc, nd, oth⟩ := r
  refine ⟨calcMetricsRow ⟨pop, fully, nc, nd, oth⟩, ?_, rfl, rfl, rfl, rfl, rfl, ?_, ?_, ?_, ?_⟩
  · simp only [calculate_population_metrics, List.getElem?_map, hri]
    rfl
  · rintro (rfl | rfl)
    · exact ⟨by cases nc <;> rfl, by cases nd <;> rfl, by cases fully <;> rfl⟩
    · refine ⟨?_, ?_, ?_⟩
      · cases nc <;> simp [calcMetricsRow, divOpt, roundTo]
      · cases nd <;> simp [calcMetricsRow, divOpt, roundTo]
      · cases fully <;> simp [calcMetricsRow, divOpt, roundTo]
  · intro p c hp hpne hc
    cases hp
    cases hc
    obtain ⟨z, hz, hd⟩ := roundTo_dist 2 (c / p * 100000)
    refine ⟨z, ?_, by norm_num at hd ⊢; exact hd⟩
    show roundTo 2 ((divOpt (some c) (some p)).map (· * 100000)) = some ((z : ℚ) / 100)
    rw [show divOpt (some c) (some p) = some (c / p) by simp [divOpt, hpne]]
    rw [show (some (c / p)).map (· * 100000) = some (c / p * 100000) from rfl, hz]
    norm_num
  · intro p c hp hpne hc
    cases hp
    cases hc
    obtain ⟨z, hz, hd⟩ := roundTo_dist 2 (c / p * 100000)
    refine ⟨z, ?_, by norm_num at hd ⊢; exact hd⟩
    show roundTo 2 ((divOpt (some c) (some p)).map (· * 100000)) = some ((z : ℚ) / 100)
    rw [show divOpt (some c) (some p) = some (c / p) by simp [divOpt, hpne]]
    rw [show (some (c / p)).map (· * 100000) = some (c / p * 100000) from rfl, hz]
    norm_num
  · intro p f hp hpne hf
    cases hp
    cases hf
    obtain ⟨z, hz, hd⟩ := roundTo_dist 1 (f / p * 100)
    refine ⟨z, ?_, by norm_num at hd ⊢; exact hd⟩
    show roundTo 1 ((divOpt (some f) (some p)).map (· * 100)) = some ((z : ℚ) / 10)
    rw [show divOpt (some f) (some p) = some (f / p) by simp [divOpt, hpne]]
    rw [show (some (f / p)).map (· * 100) = some (f / p * 100) from rfl, hz]
    norm_num

/-- C7 witness: on the one-row table with population 1000, 100 fully
vaccinated, 5 new cases and null new deaths, the theorem applies and
the output row has `unvaccinated = 900`,
`casesPerHundredThousand = 500` (5/1000 × 100000, no rounding needed),
null `deathsPerHundredThousand` (null numerator) and
`percentageVaccinated = 10`. -/
theorem C7_calculate_population_metrics_witness :
    (calculate_population_metrics
        [(⟨some 1000, some 100, some 5, none, ()⟩ : MetricsRow Unit)]).length = 1 ∧
    ∃ o : MetricsOut Unit,
      (calculate_population_metrics
          [(⟨some 1000, some 100, some 5, none, ()⟩ : MetricsRow Unit)])[0]? = some o ∧
        o.unvaccinated = some 900 ∧ o.casesPerHundredThousand = some 500 ∧
        o.deathsPerHundredThousand = none ∧ o.percentageVaccinated = some 10 := by
  obtain ⟨hlen, h⟩ := C7_calculate_population_metrics (α := Unit)
    [⟨some 1000, some 100, some 5, none, ()⟩]
  obtain ⟨o, ho, -⟩ := h 0 _ rfl
  have hoeq : o = calcMetricsRow ⟨some 1000, some 100, some 5, none, ()⟩ := by
    have hv : (calculate_population_metrics
        [(⟨some 1000, some 100, some 5, none, ()⟩ : MetricsRow Unit)])[0]? =
      some (calcMetricsRow ⟨some 1000, some 100, some 5, none, ()⟩) := rfl
    rw [hv] at ho
    exact (Option.some.injEq _ _ ▸ ho).symm
  subst hoeq
  refine ⟨hlen, _, ho, ?_, ?_, ?_, ?_⟩ <;>
    norm_num [calcMetricsRow, divOpt, roundTo, roundHalfEven, subOpt]

/-! ## The merge orchestrator (`load` / `_load_data`,
src/data/loader.py 222-262 and 392-414)

`load()` registers, in this order, the processing functions
`drop_rep_ireland` and `calculate_population_metrics` and the custom
datasets vaccinations (join keys `[Country/Region, DateRecorded]`) and
populations (join key `Country/Region`); `_load_data` then retrieves
the primary frame, preprocesses it (`_preprocess_whole_df`), folds the
registered datasets in registration order (`_do_merges`), restricts to
the primary frame's countries, applies the processing chain, and
sorts by date.

The populations dataset's pre-processor filters the UN file by
`datetime.date.today()`'s year and is therefore a function of the
current date and of an external file shape; the pipeline here takes
its *output* (country, population rows) as an input, which is the
boundary the claims need.  `sort_values` uses an unstable quicksort;
the embedding uses a stable insertion sort, a fixed choice among the
orders the source leaves unspecified for equal dates. -/

/-- Order on `Int` keys (pandas sorts numerically). -/
def intLe (a b : Int) : Bool := decide (a ≤ b)

/-- Code-point lexicographic comparison on char lists. -/
def charListLe : List Char → List Char → Bool
  | [], _ => true
  | _ :: _, [] => false
  | a :: as, b :: bs =>
    if a.val < b.val then true
    else if b.val < a.val then false
    else charListLe as bs

/-- Code-point lexicographic order on strings (python's `<` on str). -/
def strLe (a b : String) : Bool := charListLe a.data b.data

/-- Lexicographic product order, as pandas sorts multi-column keys. -/
def lexLe [DecidableEq α] (la : α → α → Bool) (lb : β → β → Bool) (x y : α × β) : Bool :=
  if x.1 = y.1 then lb x.2 y.2 else la x.1 y.1

/-- The key column of a `group_aggregate` result is the sorted
deduplication of the input's key column. -/
theorem group_aggregate_map_fst (le : κ → κ → Bool) [DecidableEq κ]
    (rows : List (κ × List (Option Int))) :
    (group_aggregate le rows).map Prod.fst =
      ((rows.map Prod.fst).dedup).insertionSort fun a b => le a b = true := by
  show (List.map _ _).map Prod.fst = _
  rw [List.map_map]
  exact List.map_id _

/-- `group_aggregate` returns one row per distinct key-tuple. -/
theorem group_aggregate_keys_nodup (le : κ → κ → Bool) [DecidableEq κ]
    (rows : List (κ × List (Option Int))) :
    ((group_aggregate le rows).map Prod.fst).Nodup := by
  rw [group_aggregate_map_fst]
  exact ((List.perm_insertionSort _ _).nodup_iff).mpr (List.nodup_dedup _)

/-- Every key of a `group_aggregate` result comes from the input. -/
theorem group_aggregate_keys_subset (le : κ → κ → Bool) [DecidableEq κ]
    (rows : List (κ × List (Option Int))) :
    ∀ k ∈ (group_aggregate le rows).map Prod.fst, k ∈ rows.map Prod.fst := by
  intro k hk
  rw [group_aggregate_map_fst] at hk
  exact List.mem_dedup.mp ((List.perm_insertionSort _ _).mem_iff.mp hk)

/-- `drop_duplicates(keep='last')` keeps a subsequence of the rows. -/
theorem drop_duplicates_last_sublist (key : ρ → κ) [DecidableEq κ] (l : List ρ) :
    List.Sublist (drop_duplicates_last key l) l := by
  induction l with
  | nil => exact List.Sublist.refl []
  | cons r rest ih =>
    unfold drop_duplicates_last
    by_cases h : rest.any (fun s => key s = key r) = true
    · rw [if_pos h]
      exact ih.cons r
    · rw [if_neg h]
      exact ih.cons₂ r

/-- After `drop_duplicates(keep='last')` the keys are distinct. -/
theorem drop_duplicates_last_keys_nodup (key : ρ → κ) [DecidableEq κ] (l : List ρ) :
    ((drop_duplicates_last key l).map key).Nodup := by
  induction l with
  | nil => simp [drop_duplicates_last]
  | cons r rest ih =>
    unfold drop_duplicates_last
    by_cases h : rest.any (fun s => key s = key r) = true
    · rw [if_pos h]
      exact ih
    · rw [if_neg h]
      simp only [List.map_cons, List.nodup_cons]
      refine ⟨?_, ih⟩
      intro hmem
      rw [List.mem_map] at hmem
      obtain ⟨s, hs, hks⟩ := hmem
      refine h ?_
      rw [List.any_eq_true]
      exact ⟨s, (drop_duplicates_last_sublist key rest).subset hs, by simp [hks]⟩

/-- `subtract_previous` writes one new column into each row: any
projection that ignores the new column factors through the input. -/
theorem subtract_previous_map_key (group : ρ → γ) (value : ρ → Option Int)
    (write : ρ → Option Int → σ) [DecidableEq γ] (rows : List ρ)
    (f : σ → δ) (g : ρ → δ) (hw : ∀ r o, f (write r o) = g r) :
    (subtract_previous group value write rows).map f = rows.map g := by
  refine List.ext_getElem? fun n => ?_
  rw [List.getElem?_map, List.getElem?_map]
  unfold subtract_previous
  rw [List.getElem?_mapIdx]
  cases rows[n]? with
  | none => rfl
  | some r =>
    simp only [Option.map_some']
    rw [hw]

/-! ### Pipeline row types -/

/-- A melted primary (CSSE) row: one (country, date) observation with
cumulative confirmed/deaths/recovered counts. -/
structure PrimRow where
  country : String
  date : Date
  confirmed : Option Int
  deaths : Option Int
  recovered : Option Int
deriving DecidableEq, Repr

/-- After `group_aggregate([DateRecorded, Country/Region, Confirmed])`:
the key triple (null-confirmed rows were dropped by groupby) plus the
summed numeric columns. -/
structure P1Row where
  date : Date
  country : String
  confirmed : Int
  deaths : Option Int
  recovered : Option Int
deriving DecidableEq, Repr

/-- After the two `subtract_previous` calls of
`_preprocess_whole_df`. -/
structure P3Row where
  date : Date
  country : String
  confirmed : Int
  deaths : Option Int
  recovered : Option Int
  newCases : Option Int
  newDeaths : Option Int
deriving DecidableEq, Repr

/-- `df.group_aggregate([DATE_RECORDED, COUNTRY_REGION, CONFIRMED])`:
rows with a null key cell are dropped by groupby, the rest keyed by
the (date, country, confirmed) triple with [deaths, recovered] as the
numeric columns, sorted lexicographically. -/
def prim_group_aggregate (raw : List PrimRow) : List P1Row :=
  (group_aggregate (lexLe intLe (lexLe strLe intLe))
      (raw.filterMap fun r =>
        r.confirmed.map fun c => ((r.date, r.country, c), [r.deaths, r.recovered]))).map
    fun g => ⟨g.1.1, g.1.2.1, g.1.2.2, g.2.getD 0 none, g.2.getD 1 none⟩

/-- `_preprocess_whole_df` (loader.py 208-219): group-aggregate,
de-duplicate on (date, country) keeping the last row, then derive
`NewCases` from `Confirmed` and `NewDeaths` from `Deaths`, each
grouped by country. -/
def preprocess_whole_df (raw : List PrimRow) : List P3Row :=
  let df1 := prim_group_aggregate raw
  let df2 := drop_duplicates_last (fun r => (r.date, r.country)) df1
  let df3 := subtract_previous (fun r => r.country) (fun r => some r.confirmed)
    (fun r o => (r, o)) df2
  subtract_previous (fun rp => rp.1.country) (fun rp => rp.1.deaths)
    (fun rp o => ⟨rp.1.date, rp.1.country, rp.1.confirmed, rp.1.deaths, rp.1.recovered,
      rp.2, o⟩) df3

/-- A vaccination-source row after the renames and date parse of the
vaccinations pre-processor. -/
structure VRow where
  date : Date
  country : String
  doses : Option Int
  fully : Option Int
  boosters : Option Int
  partially : Option Int
  bph : Option Int
deriving DecidableEq, Repr

/-- The vaccinations pre-processor (loader.py 306-313): group-aggregate
on (date, country) then keep the `VACCINE_FIELDS` columns. -/
def vacc_pre (raw : List VRow) : List VRow :=
  (group_aggregate (lexLe intLe strLe)
      (raw.map fun r =>
        ((r.date, r.country), [r.doses, r.fully, r.boosters, r.partially, r.bph]))).map
    fun g => ⟨g.1.1, g.1.2, g.2.getD 0 none, g.2.getD 1 none, g.2.getD 2 none,
      g.2.getD 3 none, g.2.getD 4 none⟩

/-- A row of the frame after the vaccinations outer join on
(country, date): the key columns plus each side's other columns,
absent sides null. -/
structure M1Row where
  country : String
  date : Date
  prim : Option P3Row
  vacc : Option VRow
deriving DecidableEq, Repr

/-- The vaccinations merge (outer join on `[COUNTRY, DATE]`). -/
def vacc_join (prim : List P3Row) (vacc : List VRow) : List M1Row :=
  (outerJoin (prim.map fun r => ((r.country, r.date), r))
      (vacc.map fun r => ((r.country, r.date), r))).map
    fun j => ⟨j.1.1, j.1.2, j.2.1, j.2.2⟩

/-- `M1Row` plus the `daily_vaccinations` column. -/
structure M2Row where
  country : String
  date : Date
  prim : Option P3Row
  vacc : Option VRow
  dailyVacc : Option Int
deriving DecidableEq, Repr

/-- The vaccinations post-processor (loader.py 315-318):
`subtract_previous(Doses, Country/Region, daily_vaccinations)`. -/
def vacc_post (rows : List M1Row) : List M2Row :=
  subtract_previous (fun r => r.country) (fun r => r.vacc.bind VRow.doses)
    (fun r o => ⟨r.country, r.date, r.prim, r.vacc, o⟩) rows

/-- A populations row as produced by the populations pre-processor
(one country with its population figure). -/
structure PopRow where
  country : String
  population : Option Int
deriving DecidableEq, Repr

/-- A row after the populations outer join on `Country/Region` alone:
the date lives inside the optional left side, so population-only rows
have a null date. -/
structure M3Row where
  country : String
  left : Option M2Row
  pop : Option PopRow
deriving DecidableEq, Repr

/-- The populations merge (outer join on `Country/Region`). -/
def pop_join (m2 : List M2Row) (pop : List PopRow) : List M3Row :=
  (outerJoin (m2.map fun r => (r.country, r)) (pop.map fun r => (r.country, r))).map
    fun j => ⟨j.1, j.2.1, j.2.2⟩

/-- The numeric columns of the populations-merged frame, in column
order, flattened through the optional sides. -/
def m3Vals (m : M3Row) (l : M2Row) : List (Option Int) :=
  [l.prim.map P3Row.confirmed, l.prim.bind P3Row.deaths, l.prim.bind P3Row.recovered,
    l.prim.bind P3Row.newCases, l.prim.bind P3Row.newDeaths,
    l.vacc.bind VRow.doses, l.vacc.bind VRow.fully, l.vacc.bind VRow.boosters,
    l.vacc.bind VRow.partially, l.vacc.bind VRow.bph,
    l.dailyVacc, m.pop.bind PopRow.population]

/-- A row of the unified frame after the populations post-processing:
one (country, date) key with every numeric column. -/
structure FRow where
  country : String
  date : Date
  confirmed : Option Int
  deaths : Option Int
  recovered : Option Int
  newCases : Option Int
  newDeaths : Option Int
  doses : Option Int
  fully : Option Int
  boosters : Option Int
  partially : Option Int
  bph : Option Int
  dailyVacc : Option Int
  population : Option Int
deriving DecidableEq, Repr

/-- The populations post-processor (loader.py 346-351): drop rows with
a null population, then `group_aggregate([COUNTRY, DATE])` — groupby
drops the null-date rows contributed by the population-only side. -/
def pop_post (rows : List M3Row) : List FRow :=
  let kept := rows.filter fun m => (m.pop.bind PopRow.population).isSome
  (group_aggregate (lexLe strLe intLe)
      (kept.filterMap fun m => m.left.map fun l => ((m.country, l.date), m3Vals m l))).map
    fun g => ⟨g.1.1, g.1.2, g.2.getD 0 none, g.2.getD 1 none, g.2.getD 2 none,
      g.2.getD 3 none, g.2.getD 4 none, g.2.getD 5 none, g.2.getD 6 none, g.2.getD 7 none,
      g.2.getD 8 none, g.2.getD 9 none, g.2.getD 10 none, g.2.getD 11 none⟩

/-- `FRow` to the input shape of `calculate_population_metrics`: the
four computed-with columns as rationals, every other column bundled in
`other`. -/
def FRow.toMetricsRow (r : FRow) :
    MetricsRow (String × Date × Option Int × Option Int × Option Int × Option Int ×
      Option Int × Option Int × Option Int × Option Int) :=
  { population := r.population.map fun n => (n : ℚ)
    fullyVaccinated := r.fully.map fun n => (n : ℚ)
    newCases := r.newCases.map fun n => (n : ℚ)
    newDeaths := r.newDeaths.map fun n => (n : ℚ)
    other := (r.country, r.date, r.confirmed, r.deaths, r.recovered, r.doses, r.boosters,
      r.partially, r.bph, r.dailyVacc) }

/-- A row of the final unified table. -/
abbrev OutRow := MetricsOut (String × Date × Option Int × Option Int × Option Int ×
  Option Int × Option Int × Option Int × Option Int × Option Int)

/-- The country column of a final row. -/
def outCountry (r : OutRow) : String := r.other.1

/-- The date column of a final row. -/
def outDate (r : OutRow) : Date := r.other.2.1

/-- `_load_data` as wired by `load()`: preprocess the primary frame,
fold the vaccinations then the populations dataset (each merge
followed by its post-processor), keep only countries of the primary
frame, apply `drop_rep_ireland` then `calculate_population_metrics`
(registration order), and sort by date. -/
def load_data (primary : List PrimRow) (vaccRaw : List VRow) (popPre : List PopRow) :
    List OutRow :=
  let final_df := preprocess_whole_df primary
  let merged1 := vacc_post (vacc_join final_df (vacc_pre vaccRaw))
  let merged2 := pop_post (pop_join merged1 popPre)
  let restricted := merged2.filter fun r => r.country ∈ final_df.map P3Row.country
  let processed := calculate_population_metrics
    ((restricted.filter fun r => ¬ (r.country = "Republic of Ireland")).map FRow.toMetricsRow)
  processed.insertionSort fun a b => outDate a ≤ outDate b

/-- The populations post-processor always leaves one row per
(country, date): its `group_aggregate([COUNTRY, DATE])` keys the
output by that pair. -/
theorem pop_post_keys_nodup (rows : List M3Row) :
    ((pop_post rows).map fun r => (r.country, r.date)).Nodup := by
  have hdef : pop_post rows = (group_aggregate (lexLe strLe intLe)
      (((rows.filter fun m => (m.pop.bind PopRow.population).isSome).filterMap
        fun m => m.left.map fun l => ((m.country, l.date), m3Vals m l)))).map
      (fun g => ⟨g.1.1, g.1.2, g.2.getD 0 none, g.2.getD 1 none, g.2.getD 2 none,
        g.2.getD 3 none, g.2.getD 4 none, g.2.getD 5 none, g.2.getD 6 none, g.2.getD 7 none,
        g.2.getD 8 none, g.2.getD 9 none, g.2.getD 10 none, g.2.getD 11 none⟩) := rfl
  rw [hdef, List.map_map]
  exact group_aggregate_keys_nodup _ _

/-- The unified frame right before the processing chain's final
`calculate_population_metrics`: the two dataset folds in registration
order, the restriction to the primary frame's countries, and the
`drop_rep_ireland` filter. -/
def restricted_table (primary : List PrimRow) (vaccRaw : List VRow) (popPre : List PopRow) :
    List FRow :=
  ((pop_post (pop_join (vacc_post (vacc_join (preprocess_whole_df primary) (vacc_pre vaccRaw)))
      popPre)).filter
    fun r => r.country ∈ (preprocess_whole_df primary).map P3Row.country).filter
      fun r => ¬ (r.country = "Republic of Ireland")

/-- Projecting (country, date) through the metrics step recovers the
underlying frame's (country, date) column. -/
theorem metrics_map_key (rows : List FRow) :
    ((calculate_population_metrics (rows.map FRow.toMetricsRow)).map
      fun r => (outCountry r, outDate r)) = rows.map fun r => (r.country, r.date) := by
  unfold calculate_population_metrics
  rw [List.map_map, List.map_map]
  rfl

/-! ### Claim C3 -/

/-- C3. The unified table produced (and persisted) by `_load_data`
contains at most one row per (country, date) pair: the last dataset
fold (populations) ends in a post-processing
`group_aggregate([COUNTRY, DATE])`, which leaves one row per key;
the subsequent country restriction and processing functions only
filter or map rows, and the final date sort permutes them. -/
theorem C3_load_data_unique_country_date (primary : List PrimRow) (vaccRaw : List VRow)
    (popPre : List PopRow) :
    ((load_data primary vaccRaw popPre).map fun r => (outCountry r, outDate r)).Nodup := by
  have hld : load_data primary vaccRaw popPre =
      (calculate_population_metrics
        ((restricted_table primary vaccRaw popPre).map FRow.toMetricsRow)).insertionSort
        (fun a b => outDate a ≤ outDate b) := rfl
  rw [hld]
  refine (((List.perm_insertionSort _ _).map _).nodup_iff).mpr ?_
  rw [metrics_map_key]
  refine List.Nodup.sublist ?_ (pop_post_keys_nodup
    (pop_join (vacc_post (vacc_join (preprocess_whole_df primary) (vacc_pre vaccRaw))) popPre))
  exact ((List.filter_sublist _).trans (List.filter_sublist _)).map _

/-- Every country of the preprocessed primary frame comes from the raw
primary frame. -/
theorem preprocess_countries_subset (primary : List PrimRow) :
    ∀ c ∈ (preprocess_whole_df primary).map P3Row.country, c ∈ primary.map PrimRow.country := by
  intro c hc
  have e1 : preprocess_whole_df primary = subtract_previous (fun rp => rp.1.country)
      (fun rp => rp.1.deaths) (fun rp o => ⟨rp.1.date, rp.1.country, rp.1.confirmed,
        rp.1.deaths, rp.1.recovered, rp.2, o⟩)
      (subtract_previous (fun r : P1Row => r.country) (fun r => some r.confirmed)
        (fun r o => (r, o))
        (drop_duplicates_last (fun r : P1Row => (r.date, r.country))
          (prim_group_aggregate primary))) := rfl
  rw [e1, subtract_previous_map_key _ _ _ _ P3Row.country
    (fun rp : P1Row × Option Int => rp.1.country) (fun _ _ => rfl),
    subtract_previous_map_key _ _ _ _ (fun rp : P1Row × Option Int => rp.1.country)
    (fun r : P1Row => r.country) (fun _ _ => rfl)] at hc
  have hc2 : c ∈ (prim_group_aggregate primary).map fun r => r.country :=
    (((drop_duplicates_last_sublist _ _).map _).subset) hc
  rw [List.mem_map] at hc2
  obtain ⟨r1, hr1, rfl⟩ := hc2
  unfold prim_group_aggregate at hr1
  rw [List.mem_map] at hr1
  obtain ⟨g, hg, rfl⟩ := hr1
  show g.1.2.1 ∈ primary.map PrimRow.country
  have hgk : g.1 ∈ (group_aggregate (lexLe intLe (lexLe strLe intLe))
      (primary.filterMap fun r =>
        r.confirmed.map fun c => ((r.date, r.country, c), [r.deaths, r.recovered]))).map
      Prod.fst := List.mem_map_of_mem _ hg
  have hgk2 := group_aggregate_keys_subset _ _ _ hgk
  rw [List.mem_map] at hgk2
  obtain ⟨x, hx, hxeq⟩ := hgk2
  rw [List.mem_filterMap] at hx
  obtain ⟨r0, hr0, hr0eq⟩ := hx
  rw [Option.map_eq_some'] at hr0eq
  obtain ⟨cv, hcv, hxval⟩ := hr0eq
  have hcountry : g.1.2.1 = r0.country := by
    rw [← hxeq, ← hxval]
  rw [hcountry]
  exact List.mem_map_of_mem _ hr0

/-! ### Claim C6 -/

set_option maxHeartbeats 1600000 in
/-- C6. The fold phase applies the registered descriptors in
registration order — vaccinations first, then populations, each merge
followed by its own post-processor, then the country restriction,
then the registered processing chain, then the date sort (the first
conjunct spells out that composition) — and restricts the merged
result to the countries of the primary frame, so every row of the
final unified table carries a country present in the (raw) primary
table; countries only a side dataset introduced are dropped by the
restriction. -/
theorem C6_fold_order_and_country_restriction (primary : List PrimRow) (vaccRaw : List VRow)
    (popPre : List PopRow) :
    (load_data primary vaccRaw popPre =
      (calculate_population_metrics
        ((restricted_table primary vaccRaw popPre).map FRow.toMetricsRow)).insertionSort
        (fun a b => outDate a ≤ outDate b)) ∧
    ∀ r ∈ load_data primary vaccRaw popPre, outCountry r ∈ primary.map PrimRow.country := by
  have hld : load_data primary vaccRaw popPre =
      (calculate_population_metrics
        ((restricted_table primary vaccRaw popPre).map FRow.toMetricsRow)).insertionSort
        (fun a b => outDate a ≤ outDate b) := rfl
  have hrt : restricted_table primary vaccRaw popPre =
      ((pop_post (pop_join (vacc_post (vacc_join (preprocess_whole_df primary)
          (vacc_pre vaccRaw))) popPre)).filter
        fun r => r.country ∈ (preprocess_whole_df primary).map P3Row.country).filter
          fun r => ¬ (r.country = "Republic of Ireland") := rfl
  refine ⟨hld, ?_⟩
  intro r hr
  rw [hld] at hr
  have hr1 : r ∈ calculate_population_metrics
      ((restricted_table primary vaccRaw popPre).map FRow.toMetricsRow) :=
    ((List.perm_insertionSort _ _).mem_iff).mp hr
  unfold calculate_population_metrics at hr1
  rw [List.mem_map] at hr1
  obtain ⟨m, hm, rfl⟩ := hr1
  rw [List.mem_map] at hm
  obtain ⟨s, hs, rfl⟩ := hm
  rw [hrt] at hs
  show s.country ∈ primary.map PrimRow.country
  have hs1 := List.mem_of_mem_filter hs
  have hsc : s.country ∈ (preprocess_whole_df primary).map P3Row.country := by
    have := List.of_mem_filter hs1
    simpa using this
  exact preprocess_countries_subset primary _ hsc

set_option maxHeartbeats 1600000 in
/-- C6 witness: a one-country pipeline run.  The primary frame has the
single row (US, day 0, confirmed 1), the vaccination source is empty
and the populations table gives US population 5; the pipeline
produces exactly one row, and the theorem places its country among
the primary frame's countries. -/
theorem C6_fold_order_witness :
    (load_data [⟨"US", 0, some 1, some 0, some 0⟩] [] [⟨"US", some 5⟩] =
      [calcMetricsRow (FRow.toMetricsRow
        ⟨"US", 0, some 1, some 0, some 0, some 0, some 0, some 0, some 0, some 0,
          some 0, some 0, some 0, some 5⟩)]) ∧
    outCountry (calcMetricsRow (FRow.toMetricsRow
        ⟨"US", 0, some 1, some 0, some 0, some 0, some 0, some 0, some 0, some 0,
          some 0, some 0, some 0, some 5⟩)) ∈
      [(⟨"US", 0, some 1, some 0, some 0⟩ : PrimRow)].map PrimRow.country := by
  have hpipe : load_data [⟨"US", 0, some 1, some 0, some 0⟩] [] [⟨"US", some 5⟩] =
      [calcMetricsRow (FRow.toMetricsRow
        ⟨"US", 0, some 1, some 0, some 0, some 0, some 0, some 0, some 0, some 0,
          some 0, some 0, some 0, some 5⟩)] := rfl
  refine ⟨hpipe, ?_⟩
  refine (C6_fold_order_and_country_restriction
    [⟨"US", 0, some 1, some 0, some 0⟩] [] [⟨"US", some 5⟩]).2 _ ?_
  rw [hpipe]
  exact List.mem_singleton.mpr rfl

end CovidViz
